import Mathlib

/-!
Verification of the `pp-schedule` date/time utility library
(`schedule/schedule.py`) against its natural-language specification.

Embedding conventions:
* A Python `datetime` is a `Datetime`: a day number (days since
  1970-01-01, proleptic Gregorian) together with a time-of-day in
  microseconds.  Python's component-wise lexicographic comparison of
  valid datetimes agrees with comparison of total microseconds, which is
  what `toMicros` provides.
* Python `//` and `%` on integers (all divisors in this code are
  positive constants) are floor division and nonnegative remainder,
  i.e. Lean's `Int.ediv`/`Int.emod`, the default `/` and `%` on `Int`.
  `math.floor((new_month - 1) / 12)` on integer input equals the same
  floor division (the intermediate IEEE quotient is exact for the
  magnitudes accepted by `datetime`).
* Conversion between day numbers and (year, month, day) triples uses
  the standard civil-calendar algorithms (`daysFromCivil` /
  `civilFromDays`), mirroring what CPython's `datetime` does via its
  ordinal arithmetic.
* Fallible constructors (`datetime(...)` raising `ValueError`) are
  embedded with `Except PyErr`.
* Python numbers in `get_time` are embedded as `PyNum` (an integer or a
  rational): `round(x, 3)` on an `int` returns the `int` unchanged, on a
  `float` it rounds half-to-even at 3 decimals.  The decimal renderer
  `fmtFloat` covers the values `get_time` actually formats (at most
  three decimals, magnitudes far below the range where Python switches
  to scientific notation), where Python's shortest-repr prints exactly
  the rounded decimal.
-/

/-- Microseconds in one day. -/
def usPerDay : Int := 86400000000

/-- Python's `x or y` on integers: `y` when `x == 0`, else `x`. -/
def pyOr (x y : Int) : Int := if x = 0 then y else x

/-- Gregorian leap-year predicate. -/
def isLeap (y : Int) : Bool := y % 4 = 0 && (y % 100 != 0 || y % 400 = 0)

/-- Number of days in a month (month given as 1..12). -/
def daysInMonth (y m : Int) : Int :=
  if m = 2 then (if isLeap y then 29 else 28)
  else if m = 4 || m = 6 || m = 9 || m = 11 then 30
  else 31

/-- Day number (days since 1970-01-01) of a civil date, standard
civil-from-days algorithm over the proleptic Gregorian calendar. -/
def daysFromCivil (y m d : Int) : Int :=
  let y1 := y - (if m ≤ 2 then 1 else 0)
  let era := y1 / 400
  let yoe := y1 - era * 400
  let doy := (153 * (m + (if 2 < m then -3 else 9)) + 2) / 5 + d - 1
  let doe := yoe * 365 + yoe / 4 - yoe / 100 + doy
  era * 146097 + doe - 719468

/-- Civil date (year, month, day) of a day number; inverse of
`daysFromCivil`. -/
def civilFromDays (z : Int) : Int × Int × Int :=
  let z1 := z + 719468
  let era := z1 / 146097
  let doe := z1 - era * 146097
  let yoe := (doe - doe / 1460 + doe / 36524 - doe / 146096) / 365
  let y := yoe + era * 400
  let doy := doe - (365 * yoe + yoe / 4 - yoe / 100)
  let mp := (5 * doy + 2) / 153
  let d := doy - (153 * mp + 2) / 5 + 1
  let m := mp + (if mp < 10 then 3 else -9)
  (y + (if m ≤ 2 then 1 else 0), m, d)

/-- A Python `datetime`: day number since 1970-01-01 plus time-of-day in
microseconds (valid values keep `0 ≤ tod < usPerDay`). -/
structure Datetime where
  day : Int
  tod : Int
deriving DecidableEq

/-- Total microseconds since the epoch; Python's datetime comparison on
valid values coincides with comparison of this quantity. -/
def toMicros (t : Datetime) : Int := t.day * usPerDay + t.tod

/-- Python `t + timedelta(days=n)`. -/
def addDays (t : Datetime) (n : Int) : Datetime := ⟨t.day + n, t.tod⟩

/-- Python `datetime.combine(aux, datetime.min.time())`. -/
def midnightOf (t : Datetime) : Datetime := ⟨t.day, 0⟩

/-- Python `date.weekday`: Monday = 0 .. Sunday = 6.  Day 0
(1970-01-01) was a Thursday. -/
def pyWeekday (t : Datetime) : Int := (t.day + 3) % 7

/-- Year component of a datetime (`actual_day.year`). -/
def yearOf (t : Datetime) : Int := (civilFromDays t.day).1

/-- Source `is_bussines_day(actual_day, holidays=None)`.  The holiday
mapping `dict[int, list[date]]` is embedded as an association list from
year to day numbers; `None` is `none`, and an empty dict is falsy. -/
def is_bussines_day (actual_day : Datetime)
    (holidays : Option (List (Int × List Int))) : Bool :=
  if 4 < pyWeekday actual_day then false
  else
    match holidays with
    | none => true
    | some hs =>
      if hs = [] then true
      else
        match hs.lookup (yearOf actual_day) with
        | some ds => !(ds.contains actual_day.day)
        | none => true

/-- The `while not is_bussines_day: step` search of
`get_prev_business_day`, with fuel (the loop finds a weekday within
three steps, so any fuel of at least four is conservative). -/
def prevSearch : Nat → Datetime → Datetime
  | 0, v => v
  | n + 1, v => if is_bussines_day v none then v else prevSearch n (addDays v (-1))

/-- The symmetric forward search of `get_next_business_day`. -/
def nextSearch : Nat → Datetime → Datetime
  | 0, v => v
  | n + 1, v => if is_bussines_day v none then v else nextSearch n (addDays v 1)

/-- Source `get_prev_business_day(value, keep=False)`. -/
def get_prev_business_day (value : Datetime) (keep : Bool) : Datetime :=
  if keep && is_bussines_day value none then value
  else prevSearch 7 (addDays value (-1))

/-- Source `get_next_business_day(value, keep=False)`. -/
def get_next_business_day (value : Datetime) (keep : Bool) : Datetime :=
  if keep && is_bussines_day value none then value
  else nextSearch 7 (addDays value 1)

/-- The `while aux <= end` loop of `get_business_days_between`, with
fuel; each kept iteration appends the midnight of `aux` when `aux`
falls on a weekday (the source tests `date.weekday(aux) <= 4`
directly). -/
def bizDaysLoop : Nat → Datetime → Datetime → List Datetime
  | 0, _, _ => []
  | n + 1, aux, e =>
    if toMicros aux ≤ toMicros e then
      (if pyWeekday aux ≤ 4 then [midnightOf aux] else [])
        ++ bizDaysLoop n (addDays aux 1) e
    else []

/-- Source `get_business_days_between(start, end)`: starts at
`start + timedelta(days=1)` and scans while `aux <= end`.  The fuel
`(end.day - start.day + 1)` dominates the number of loop iterations. -/
def get_business_days_between (s e : Datetime) : List Datetime :=
  bizDaysLoop (e.day - s.day + 1).toNat (addDays s 1) e

/-- Consecutive day numbers, `n` of them, starting at `lo`. -/
def intRangeAux : Nat → Int → List Int
  | 0, _ => []
  | n + 1, lo => lo :: intRangeAux n (lo + 1)

/-- List of day numbers `lo, lo+1, ..., hi`. -/
def intRange (lo hi : Int) : List Int := intRangeAux (hi + 1 - lo).toNat lo

/-- Spec-side comparator for `businessDaysBetween` (refinement target,
following the spec's words): the weekday days strictly after `start`
and up to and including `end`, each normalized to midnight, in
increasing order. -/
def businessDaysSpec (s e : Datetime) : List Datetime :=
  ((intRange (s.day + 1) e.day).filter (fun j => (j + 3) % 7 ≤ 4)).map
    (fun j => ⟨j, 0⟩)

/-- The `ValueError`s the `datetime` constructor can raise, by message. -/
inductive PyErr where
  | yearOutOfRange
  | monthOutOfRange
  | dayOutOfRange
deriving DecidableEq

/-- Python's `datetime(year, month, day)` constructor: validates year,
then month, then day, raising `ValueError` in that order. -/
def mkDatetime (y m d : Int) : Except PyErr Datetime :=
  if ¬(1 ≤ y ∧ y ≤ 9999) then .error .yearOutOfRange
  else if ¬(1 ≤ m ∧ m ≤ 12) then .error .monthOutOfRange
  else if ¬(1 ≤ d ∧ d ≤ daysInMonth y m) then .error .dayOutOfRange
  else .ok ⟨daysFromCivil y m d, 0⟩

/-- Source `up_date(ref, days=0, months=0, years=0)`.  Note the
fallback month expression `(new_month + 1 % 12) or 12`: by Python
operator precedence it is `new_month + (1 % 12)`, i.e. `new_month + 1`,
then `or 12`. -/
def up_date (ref : Datetime) (days months years : Int) : Except PyErr Datetime :=
  if months = 0 ∧ years = 0 ∧ days = 0 then .ok ref
  else
    let c := civilFromDays ref.day
    let year := c.1
    let month := c.2.1
    let day := c.2.2
    let new_month := month + months
    let new_year := year + years
    match mkDatetime (new_year + (new_month - 1) / 12) (pyOr (new_month % 12) 12) day with
    | .ok t => .ok (addDays t days)
    | .error e =>
      if e = .dayOutOfRange then
        match mkDatetime (new_year + (new_month - 1) / 12) (pyOr (new_month + 1) 12) 1 with
        | .ok t => .ok (addDays t days)
        | .error e2 => .error e2
      else .error e

/-- A Python number as `get_time` sees it: an `int` or a `float` (the
latter embedded as an exact rational). -/
inductive PyNum where
  | i (n : Int)
  | f (q : ℚ)
deriving DecidableEq

/-- Numeric value of a `PyNum`. -/
def PyNum.val : PyNum → ℚ
  | .i n => (n : ℚ)
  | .f q => q

/-- Division of a rational by a positive integer constant, computed on
the numerator/denominator pair (definitionally reducible; see
`qdivNat_eq` for the bridge to field division). -/
def qdivNat (x : ℚ) (c : Nat) : ℚ := mkRat x.num (x.den * c)

/-- Multiplication of a rational by an integer constant, computed on
the numerator/denominator pair. -/
def qmulNat (x : ℚ) (c : Nat) : ℚ := mkRat (x.num * c) x.den

theorem qdivNat_eq (x : ℚ) (c : Nat) : qdivNat x c = x / (c : ℚ) := by
  unfold qdivNat
  rw [Rat.mkRat_eq_div]
  push_cast
  rw [← div_div, Rat.num_div_den]

theorem qmulNat_eq (x : ℚ) (c : Nat) : qmulNat x c = x * (c : ℚ) := by
  unfold qmulNat
  rw [Rat.mkRat_eq_div]
  push_cast
  rw [show ((x.num : ℚ) * c / x.den = x.num / x.den * c) from by ring, Rat.num_div_den]

/-- Round a rational to the nearest integer, ties to even (the rounding
Python's `round` uses).  `rnum` is twice the numerator of the
fractional part over the denominator, so `rnum < den` means the
fraction is below one half. -/
def roundHalfEven (x : ℚ) : Int :=
  let n := x.floor
  let rnum := 2 * (x.num - n * (x.den : Int))
  if rnum < (x.den : Int) then n
  else if (x.den : Int) < rnum then n + 1
  else if n % 2 = 0 then n else n + 1

/-- Round to three decimal places, half to even. -/
def round3 (q : ℚ) : ℚ := mkRat (roundHalfEven (qmulNat q 1000)) 1000

/-- Python `round(x, 3)`: an `int` is returned unchanged, a `float` is
rounded to three decimals. -/
def pyRound3 : PyNum → PyNum
  | .i n => .i n
  | .f q => .f (round3 q)

/-- Fractional digit block for a decimal with at most three places:
`n` is the number of thousandths (0..999); trailing zeros are dropped
but at least one digit is kept, matching Python's float repr on such
values. -/
def fracDigits (n : Nat) : String :=
  if n = 0 then "0"
  else if n % 100 = 0 then toString (n / 100)
  else if n % 10 = 0 then (if n / 10 < 10 then "0" else "") ++ toString (n / 10)
  else (if n < 10 then "00" else if n < 100 then "0" else "") ++ toString n

/-- Decimal rendering of a nonnegative rational with at most three
decimal places (the shape `round(x, 3)` produces); the thousandths of
the fractional part are `⌊q*1000⌋ - ⌊q⌋*1000`, computed on the
numerator/denominator pair. -/
def fmtFloatAbs (q : ℚ) : String :=
  let ip := q.floor
  let milli := (q.num * 1000 / (q.den : Int) - ip * 1000).toNat
  toString ip ++ "." ++ fracDigits milli

/-- Python's rendering of a float with at most three decimal places. -/
def fmtFloat (q : ℚ) : String :=
  if q < 0 then "-" ++ fmtFloatAbs (-q) else fmtFloatAbs q

/-- Python's f-string rendering of the number `round(...)` produced:
ints print without a decimal point, floats with one. -/
def fmtNum : PyNum → String
  | .i n => toString n
  | .f q => fmtFloat q

/-- Source `get_time(t)`: scale a nanosecond count to the first unit
where it is below 1000 (`nS`, `uS`, `mS`, `S`, else `min`), rounding to
three decimals.  Division by a literal always produces a float. -/
def get_time (t : PyNum) : String :=
  if t.val < 1000 then fmtNum (pyRound3 t) ++ "nS"
  else if t.val < 1000000 then fmtNum (.f (round3 (qdivNat t.val 1000))) ++ "uS"
  else if t.val < 1000000000 then fmtNum (.f (round3 (qdivNat t.val 1000000))) ++ "mS"
  else if t.val < 60000000000 then fmtNum (.f (round3 (qdivNat t.val 1000000000))) ++ "S"
  else fmtNum (.f (round3 (qdivNat t.val 60000000000))) ++ "min"

/-- A Python `time` value (time of day). -/
structure TimeOfDay where
  hour : Int
  minute : Int
  second : Int
  microsecond : Int
deriving DecidableEq

/-- Microseconds since midnight of a time-of-day value. -/
def todMicros (t : TimeOfDay) : Int :=
  ((t.hour * 60 + t.minute) * 60 + t.second) * 1000000 + t.microsecond

/-- Source `get_min_between_times(start, end)`: both times are combined
with the same reference date (`date.min`), subtracted, and the
`total_seconds()` of the difference is divided by 60 and then by 5.
Arithmetic on the resulting Python floats is embedded exactly over ℚ. -/
def get_min_between_times (s e : TimeOfDay) : ℚ :=
  (((todMicros e - todMicros s : Int) : ℚ) / 1000000) / 60 / 5

/-- Exceptions observable from a call of a `timeit`-wrapped function:
an exception of the wrapped callable, `min([])` on zero repeats, or the
zero division in `min(trials) / number`. -/
inductive TimeitErr (E : Type) where
  | fn (e : E)
  | emptyMin
  | divZero

/-- Run the wrapped callable `n` times in order (call index, gc-state
in, gc-state out); the first exception aborts the sequence, otherwise
the last result is kept (`result` holds only the final value). -/
def runSeqSt {E A : Type} (f : Nat → Bool → Bool × Except E A) :
    Nat → Bool → Bool × Except E (Option A)
  | 0, s => (s, .ok none)
  | n + 1, s =>
    match runSeqSt f n s with
    | (s1, .ok _) =>
      match f n s1 with
      | (s2, .ok a) => (s2, .ok (some a))
      | (s2, .error e) => (s2, .error e)
    | (s1, .error e) => (s1, .error e)

/-- Source `timeit` decorator, with the process-wide gc-enabled flag
made explicit: record `gcold = gc.isenabled()`, `gc.disable()`, run the
`repeat`×`number` call loops in a `try`, and in the `finally` re-enable
gc only when `gcold` was set.  Timing and console output touch no
caller-visible state and are dropped; the `min([])`/division errors of
degenerate configurations are kept. -/
def timeitRun {E A : Type} (repeats number : Nat)
    (f : Nat → Bool → Bool × Except E A) (gc0 : Bool) :
    Bool × Except (TimeitErr E) (Option A) :=
  let gcold := gc0
  let gcOff := false
  let body := runSeqSt f (repeats * number) gcOff
  let result : Except (TimeitErr E) (Option A) :=
    match body.2 with
    | .error e => .error (.fn e)
    | .ok r =>
      if repeats = 0 then .error .emptyMin
      else if number = 0 then .error .divZero
      else .ok r
  (if gcold then true else body.1, result)

-- Sanity checks on the calendar arithmetic (1970-01-01 is day 0, a
-- Thursday; 2023-05-19 was a Friday; 2023-01-01 was a Sunday).
theorem sanity_epoch : daysFromCivil 1970 1 1 = 0 := by decide

theorem sanity_civil_roundtrip :
    civilFromDays (daysFromCivil 2023 5 19) = (2023, 5, 19) := by decide

theorem sanity_weekday_friday :
    pyWeekday ⟨daysFromCivil 2023 5 19, 0⟩ = 4 := by decide

theorem sanity_weekday_sunday :
    pyWeekday ⟨daysFromCivil 2023 1 1, 0⟩ = 6 := by decide

theorem sanity_ediv : ((-7 : Int) / 2 = -4) ∧ ((-1 : Int) % 12 = 11) := by decide

/-! ## Helper lemmas -/

theorem addDays_day (v : Datetime) (n : Int) : (addDays v n).day = v.day + n := rfl

theorem addDays_tod (v : Datetime) (n : Int) : (addDays v n).tod = v.tod := rfl

theorem addDays_addDays (v : Datetime) (a b : Int) :
    addDays (addDays v a) b = addDays v (a + b) := by
  unfold addDays
  simp [add_assoc]

theorem one_le_daysInMonth (y m : Int) : 1 ≤ daysInMonth y m := by
  unfold daysInMonth
  split
  · split <;> norm_num
  · split <;> norm_num

theorem month_norm (t : Int) : pyOr (t % 12) 12 = (t - 1) % 12 + 1 := by
  unfold pyOr
  split <;> omega

theorem mkDatetime_ok (y m d : Int) (h1 : 1 ≤ y) (h2 : y ≤ 9999) (h3 : 1 ≤ m)
    (h4 : m ≤ 12) (h5 : 1 ≤ d) (h6 : d ≤ daysInMonth y m) :
    mkDatetime y m d = Except.ok ⟨daysFromCivil y m d, 0⟩ := by
  unfold mkDatetime
  rw [if_neg (not_not_intro ⟨h1, h2⟩), if_neg (not_not_intro ⟨h3, h4⟩),
    if_neg (not_not_intro ⟨h5, h6⟩)]

theorem mkDatetime_dayErr (y m d : Int) (h1 : 1 ≤ y) (h2 : y ≤ 9999) (h3 : 1 ≤ m)
    (h4 : m ≤ 12) (h5 : daysInMonth y m < d) :
    mkDatetime y m d = Except.error PyErr.dayOutOfRange := by
  unfold mkDatetime
  rw [if_neg (not_not_intro ⟨h1, h2⟩), if_neg (not_not_intro ⟨h3, h4⟩),
    if_pos (by omega)]

theorem mkDatetime_tod {y m d : Int} {t : Datetime}
    (h : mkDatetime y m d = Except.ok t) : t.tod = 0 := by
  unfold mkDatetime at h
  split at h
  · exact Except.noConfusion h
  · split at h
    · exact Except.noConfusion h
    · split at h
      · exact Except.noConfusion h
      · cases h
        rfl

theorem biz_none (v : Datetime) :
    is_bussines_day v none = decide ((v.day + 3) % 7 ≤ 4) := by
  unfold is_bussines_day pyWeekday
  by_cases h : 4 < (v.day + 3) % 7
  · rw [if_pos h]
    exact (decide_eq_false (by omega)).symm
  · rw [if_neg h]
    exact (decide_eq_true (by omega)).symm

theorem biz_addDays (v : Datetime) (t : Int) :
    is_bussines_day (addDays v t) none = decide ((v.day + t + 3) % 7 ≤ 4) := by
  rw [biz_none, addDays_day]

/-! ## Claim theorems -/

/-- Claim C1, counterexample.  The claim asserts the day-overflow clamp
fires for *every* reference/offset combination whose computed
year/month lacks the reference's day-of-month, with no exception
escaping.  But for `up_date(2023-01-31, months=13)` the computed target
is February 2024 (which has no day 31, so the input is in the claim's
scope) and the fallback constructor is called with month
`new_month + 1 = 15`, so a `ValueError('month must be in 1..12')`
propagates instead of the clamp. -/
theorem c1_up_date_overflow_counterexample :
    civilFromDays (daysFromCivil 2023 1 31) = (2023, 1, 31) ∧
    (2023 + 0 + (1 + 13 - 1) / 12 : Int) = 2024 ∧
    pyOr ((1 + 13 : Int) % 12) 12 = 2 ∧
    daysInMonth 2024 2 < 31 ∧
    up_date ⟨daysFromCivil 2023 1 31, 0⟩ 0 13 0 = Except.error PyErr.monthOutOfRange ∧
    ∀ t : Datetime, up_date ⟨daysFromCivil 2023 1 31, 0⟩ 0 13 0 ≠ Except.ok t := by
  refine ⟨by decide, by decide, by decide, by decide, rfl, fun t h => ?_⟩
  have h2 : Except.error (ε := PyErr) (α := Datetime) PyErr.monthOutOfRange =
      Except.ok t := h
  exact Except.noConfusion h2

/-- Claim C1, amended.  Write `Y` and `M` for the computed target year
and month (year offset plus floor carry, `(m+months-1)/12` and
`(m+months-1)%12+1`).  Whenever the shifted month index `m + months` is
`-1` or lies in `1..11` — exactly the indices at which the buggy
fallback month `(new_month + 1) or 12` is still a legal month, since
`(-1 + 1) or 12` evaluates to `12` — with `Y` in `datetime`'s range,
and the reference's day-of-month does not exist in month `(Y, M)`,
`up_date` clamps to day 1 of month `M + 1` of year `Y` (the month after
the computed one; the index `m + months = 0` computes December, which
has every day, so no overflow arises there) and then applies the day
offset.  Outside that band — a day-overflowing shift with
`m + months ≥ 12` or `≤ -2` — a `ValueError('month must be in 1..12')`
propagates, as the counterexample shows. -/
theorem c1_up_date_clamp_amended :
    ∀ (ref : Datetime) (days months years y m d : Int),
      civilFromDays ref.day = (y, m, d) →
      ¬(months = 0 ∧ years = 0 ∧ days = 0) →
      (m + months = -1 ∨ (1 ≤ m + months ∧ m + months ≤ 11)) →
      1 ≤ y + years + (m + months - 1) / 12 →
      y + years + (m + months - 1) / 12 ≤ 9999 →
      daysInMonth (y + years + (m + months - 1) / 12)
        ((m + months - 1) % 12 + 1) < d →
      up_date ref days months years =
        Except.ok (addDays
          ⟨daysFromCivil (y + years + (m + months - 1) / 12)
            ((m + months - 1) % 12 + 1 + 1) 1, 0⟩ days) := by
  intro ref days months years y m d hc h0 hm hy1 hy2 hd
  rcases hm with hm1 | hm2
  · -- Shifted index -1: computed month is November of the carried-back
    -- year, and the fallback month expression lands on 12 (December).
    have hdiv : (m + months - 1) / 12 = -1 := by omega
    have hmod : (m + months) % 12 = 11 := by omega
    have hM : (m + months - 1) % 12 + 1 = 11 := by omega
    have hM2 : (m + months - 1) % 12 + 1 + 1 = 12 := by omega
    have hpy : pyOr 11 12 = 11 := by
      unfold pyOr
      rw [if_neg (by omega)]
    have hpy2 : pyOr (m + months + 1) 12 = 12 := by
      unfold pyOr
      rw [if_pos (by omega)]
    rw [hdiv] at hy1 hy2
    rw [hdiv, hM] at hd
    simp only [up_date, hc]
    rw [if_neg h0, hmod, hpy, hM2, hdiv,
      mkDatetime_dayErr (y + years + -1) 11 d hy1 hy2 (by omega) (by omega) hd]
    dsimp only
    rw [if_pos rfl, hpy2,
      mkDatetime_ok (y + years + -1) 12 1 hy1 hy2 (by omega) (by omega)
        le_rfl (one_le_daysInMonth _ _)]
  · -- Shifted index in 1..11: no year carry, fallback month is the
    -- successor month.
    have hdiv : (m + months - 1) / 12 = 0 := by omega
    have hmod : (m + months) % 12 = m + months := by omega
    have hM : (m + months - 1) % 12 + 1 = m + months := by omega
    have hM2 : (m + months - 1) % 12 + 1 + 1 = m + months + 1 := by omega
    have hpy : pyOr (m + months) 12 = m + months := by
      unfold pyOr
      rw [if_neg (by omega)]
    have hpy2 : pyOr (m + months + 1) 12 = m + months + 1 := by
      unfold pyOr
      rw [if_neg (by omega)]
    rw [hdiv, add_zero] at hy1 hy2
    rw [hdiv, add_zero, hM] at hd
    simp only [up_date, hc]
    rw [if_neg h0, hmod, hpy, hM2, hdiv, add_zero,
      mkDatetime_dayErr (y + years) (m + months) d hy1 hy2 (by omega) (by omega) hd]
    dsimp only
    rw [if_pos rfl, hpy2,
      mkDatetime_ok (y + years) (m + months + 1) 1 hy1 hy2 (by omega) (by omega)
        le_rfl (one_le_daysInMonth _ _)]

/-- Claim C3, counterexample.  The claim says `get_time` maps `500` to
`"500.0nS"`, but the Python literal `500` is an `int`, `round(500, 3)`
returns the `int` unchanged, and the f-string prints it without a
decimal point: the code (and its own test `test_get_time`) produce
`"500nS"`. -/
theorem c3_get_time_counterexample :
    get_time (PyNum.i 500) = "500nS" ∧ "500nS" ≠ "500.0nS" := by
  exact ⟨by decide, by decide⟩

/-- Claim C3, amended.  As the claim states, `get_time` scales to the
largest unit keeping the value below 1000 with half-open boundaries
(1000 → `"1.0uS"`, 1000000 → `"1.0mS"`), rounds to three decimals, and
maps 1500 → `"1.5uS"`, 1500000 → `"1.5mS"`, 1500000000 → `"1.5S"`,
3600000000000 → `"60.0min"`; but the integer input 500 yields
`"500nS"` (the float 500.0 yields the claimed `"500.0nS"`). -/
theorem c3_get_time_amended :
    get_time (PyNum.i 500) = "500nS" ∧
    get_time (PyNum.f 500) = "500.0nS" ∧
    get_time (PyNum.i 1500) = "1.5uS" ∧
    get_time (PyNum.i 1500000) = "1.5mS" ∧
    get_time (PyNum.i 1500000000) = "1.5S" ∧
    get_time (PyNum.i 3600000000000) = "60.0min" ∧
    get_time (PyNum.i 1000) = "1.0uS" ∧
    get_time (PyNum.i 1000000) = "1.0mS" ∧
    (∀ t : PyNum, t.val < 1000 → get_time t = fmtNum (pyRound3 t) ++ "nS") ∧
    (∀ t : PyNum, 1000 ≤ t.val → t.val < 1000000 →
      get_time t = fmtNum (.f (round3 (t.val / 1000))) ++ "uS") ∧
    (∀ t : PyNum, 1000000 ≤ t.val → t.val < 1000000000 →
      get_time t = fmtNum (.f (round3 (t.val / 1000000))) ++ "mS") ∧
    (∀ t : PyNum, 1000000000 ≤ t.val → t.val < 60000000000 →
      get_time t = fmtNum (.f (round3 (t.val / 1000000000))) ++ "S") ∧
    (∀ t : PyNum, 60000000000 ≤ t.val →
      get_time t = fmtNum (.f (round3 (t.val / 60000000000))) ++ "min") := by
  refine ⟨by decide, by decide, by decide, by decide, by decide, by decide,
    by decide, by decide, ?_, ?_, ?_, ?_, ?_⟩
  · intro t h
    unfold get_time
    rw [if_pos h]
  · intro t h1 h2
    unfold get_time
    rw [if_neg (not_lt.mpr h1), if_pos h2, qdivNat_eq]
    norm_cast
  · intro t h1 h2
    unfold get_time
    rw [if_neg (by linarith), if_neg (not_lt.mpr h1), if_pos h2, qdivNat_eq]
    norm_cast
  · intro t h1 h2
    unfold get_time
    rw [if_neg (by linarith), if_neg (by linarith), if_neg (not_lt.mpr h1), if_pos h2,
      qdivNat_eq]
    norm_cast
  · intro t h1
    unfold get_time
    rw [if_neg (by linarith), if_neg (by linarith), if_neg (by linarith),
      if_neg (not_lt.mpr h1), qdivNat_eq]
    norm_cast

/-- Claim C3, witness: the microsecond band applied at the float
2500.0 gives `"2.5uS"`. -/
theorem c3_get_time_amended_witness : get_time (PyNum.f 2500) = "2.5uS" := by
  have h := c3_get_time_amended.2.2.2.2.2.2.2.2.2.1 (PyNum.f 2500)
    (by norm_num [PyNum.val]) (by norm_num [PyNum.val])
  rw [h, show ((PyNum.f 2500).val / 1000 : ℚ) = qdivNat (PyNum.f 2500).val 1000 from by
    rw [qdivNat_eq]; norm_cast]
  decide

/-- Claim C4: `get_min_between_times` returns the signed end-minus-start
difference expressed in minutes, divided by 5; in particular the
12:00:00 → 13:00:00 difference reports as 12. -/
theorem c4_get_min_between_times_div5 :
    (∀ s e : TimeOfDay, get_min_between_times s e =
      (((todMicros e : ℚ) - (todMicros s : ℚ)) / 60000000) / 5) ∧
    get_min_between_times ⟨12, 0, 0, 0⟩ ⟨13, 0, 0, 0⟩ = 12 := by
  constructor
  · intro s e
    unfold get_min_between_times
    push_cast
    ring
  · norm_num [get_min_between_times, todMicros]

/-- Claim C10: `up_date` with all offsets zero returns the reference
unchanged (time-of-day included), while any call with a nonzero offset
that returns at all returns a midnight datetime, the reference's
time-of-day discarded — even for a pure day shift. -/
theorem c10_up_date_tod :
    (∀ ref : Datetime, up_date ref 0 0 0 = Except.ok ref) ∧
    (∀ (ref : Datetime) (days months years : Int) (t : Datetime),
      ¬(months = 0 ∧ years = 0 ∧ days = 0) →
      up_date ref days months years = Except.ok t → t.tod = 0) := by
  constructor
  · intro ref
    rfl
  · intro ref days months years t h0 ht
    simp only [up_date] at ht
    rw [if_neg h0] at ht
    split at ht
    · next t1 heq =>
      injection ht with h2
      subst h2
      rw [addDays_tod]
      exact mkDatetime_tod heq
    · next e heq =>
      split at ht
      · split at ht
        · next t2 heq2 =>
          injection ht with h2
          subst h2
          rw [addDays_tod]
          exact mkDatetime_tod heq2
        · exact Except.noConfusion ht
      · exact Except.noConfusion ht

/-- Claim C10, witness: a pure one-day shift of a noon datetime
returns midnight of the next calendar day. -/
theorem c10_up_date_tod_witness :
    up_date ⟨daysFromCivil 2023 1 31, 43200000005⟩ 5 0 0 =
      Except.ok ⟨daysFromCivil 2023 2 5, 0⟩ ∧
    (⟨daysFromCivil 2023 2 5, 0⟩ : Datetime).tod = 0 := by
  refine ⟨rfl, ?_⟩
  exact c10_up_date_tod.2 ⟨daysFromCivil 2023 1 31, 43200000005⟩ 5 0 0 _
    (by decide) rfl

theorem runSeqSt_gc {E A : Type} (f : Nat → Bool → Bool × Except E A)
    (hf : ∀ i s, (f i s).1 = s) : ∀ (n : Nat) (s : Bool), (runSeqSt f n s).1 = s := by
  intro n
  induction n with
  | zero => intro s; rfl
  | succ k ih =>
    intro s
    unfold runSeqSt
    rcases hrk : runSeqSt f k s with ⟨s1, r⟩
    have hs1 : s1 = s := by
      have h := ih s
      rw [hrk] at h
      exact h
    subst hs1
    cases r with
    | ok a =>
      show (match f k s1 with
        | (s2, Except.ok a) => (s2, Except.ok (some a))
        | (s2, Except.error e) => (s2, Except.error e)).1 = s1
      rcases hfk : f k s1 with ⟨s2, r2⟩
      have hs2 : s2 = s1 := by
        have h := hf k s1
        rw [hfk] at h
        exact h
      subst hs2
      cases r2 <;> rfl
    | error e => rfl

/-- Claim C9: the `timeit` decorator records the gc-enabled flag,
disables collection, and the `finally` block re-enables it exactly when
it was enabled before, so for any wrapped callable that does not itself
toggle the flag, the flag after the decorated call equals its value
before the call — on the normal path and on every raising path (wrapped
callable exceptions, `min([])` on `repeat=0`, division by `number=0`),
and the flag is the only caller-visible state the measurement touches
in this model. -/
theorem c9_timeit_gc_restore :
    ∀ (E A : Type) (repeats number : Nat) (f : Nat → Bool → Bool × Except E A)
      (gc0 : Bool), (∀ i s, (f i s).1 = s) →
      (timeitRun repeats number f gc0).1 = gc0 := by
  intro E A repeats number f gc0 hf
  simp only [timeitRun]
  rw [runSeqSt_gc f hf]
  cases gc0 <;> rfl

/-- Claim C9, witness: a wrapped callable that always raises still
leaves the flag as it found it (both for an initially-disabled and an
initially-enabled collector), and the exception propagates. -/
theorem c9_timeit_gc_restore_witness :
    (timeitRun 1 1 (fun _ s => (s, Except.error (0 : Nat))) false
      : Bool × Except (TimeitErr Nat) (Option Nat)).1 = false ∧
    (timeitRun 1 1 (fun _ s => (s, Except.error (0 : Nat))) true
      : Bool × Except (TimeitErr Nat) (Option Nat)).1 = true ∧
    (timeitRun 1 1 (fun _ s => (s, Except.error (0 : Nat))) false
      : Bool × Except (TimeitErr Nat) (Option Nat)).2 =
      Except.error (TimeitErr.fn 0) := by
  refine ⟨?_, ?_, rfl⟩
  · exact c9_timeit_gc_restore Nat Nat 1 1 _ false (fun _ _ => rfl)
  · exact c9_timeit_gc_restore Nat Nat 1 1 _ true (fun _ _ => rfl)

/-- Claim C6: weekdays (index 0–4) are business days and weekends are
not, in any year; an empty or absent holiday mapping changes nothing; a
holiday mapping is consulted only when it has an entry for the day's
year; and whenever holidays change the verdict at all, they turn an
otherwise-business day into a non-business day because the day's date
is in its year's holiday set. -/
theorem c6_is_business_day_spec :
    (∀ v : Datetime, (pyWeekday v ≤ 4 → is_bussines_day v none = true) ∧
      (4 < pyWeekday v → is_bussines_day v none = false)) ∧
    (∀ v : Datetime, is_bussines_day v (some []) = is_bussines_day v none) ∧
    (∀ (v : Datetime) (hs : List (Int × List Int)),
      hs.lookup (yearOf v) = none →
      is_bussines_day v (some hs) = is_bussines_day v none) ∧
    (∀ (v : Datetime) (hs : List (Int × List Int)),
      is_bussines_day v (some hs) ≠ is_bussines_day v none →
      is_bussines_day v none = true ∧ is_bussines_day v (some hs) = false ∧
      ∃ ds : List Int, hs.lookup (yearOf v) = some ds ∧ ds.contains v.day = true) := by
  refine ⟨?_, ?_, ?_, ?_⟩
  · intro v
    constructor
    · intro h
      simp [is_bussines_day, show ¬4 < pyWeekday v from by omega]
    · intro h
      simp [is_bussines_day, h]
  · intro v
    by_cases h : 4 < pyWeekday v <;> simp [is_bussines_day, h]
  · intro v hs hlook
    by_cases h : 4 < pyWeekday v <;> simp [is_bussines_day, h, hlook]
  · intro v hs hne
    by_cases h : 4 < pyWeekday v
    · exfalso
      apply hne
      simp [is_bussines_day, h]
    · have hv : is_bussines_day v none = true := by
        simp [is_bussines_day, h]
      refine ⟨hv, ?_, ?_⟩
      · cases hb : is_bussines_day v (some hs)
        · rfl
        · exact absurd (hb.trans hv.symm) hne
      · rw [hv] at hne
        by_cases he : hs = []
        · exfalso
          apply hne
          simp [is_bussines_day, h, he]
        · rcases hlook : hs.lookup (yearOf v) with _ | ds
          · exfalso
            apply hne
            simp [is_bussines_day, h, he, hlook]
          · refine ⟨ds, rfl, ?_⟩
            cases hc : ds.contains v.day
            · exfalso
              apply hne
              simp [is_bussines_day, h, he, hlook]
              simpa using hc
            · rfl

/-- Claim C6, witness: Friday 2023-05-19 is a business day; listing it
as a 2023 holiday flips the verdict via the year's holiday set. -/
theorem c6_is_business_day_spec_witness :
    is_bussines_day ⟨daysFromCivil 2023 5 19, 0⟩ none = true ∧
    (is_bussines_day ⟨daysFromCivil 2023 5 19, 0⟩
        (some [(2023, [daysFromCivil 2023 5 19])]) = false ∧
      ∃ ds : List Int,
        List.lookup (yearOf ⟨daysFromCivil 2023 5 19, 0⟩)
            [(2023, [daysFromCivil 2023 5 19])] = some ds ∧
        ds.contains (Datetime.day ⟨daysFromCivil 2023 5 19, 0⟩) = true) := by
  have h := c6_is_business_day_spec.2.2.2 ⟨daysFromCivil 2023 5 19, 0⟩
    [(2023, [daysFromCivil 2023 5 19])] (by decide)
  exact ⟨h.1, h.2⟩

theorem addDays_zero (v : Datetime) : addDays v (-((0 : Nat) : Int)) = v := by
  rcases v with ⟨vd, vt⟩
  simp [addDays]

theorem prevSearch_reaches :
    ∀ (n : Nat) (v : Datetime) (k : Nat), k < n →
      is_bussines_day (addDays v (-(k : Int))) none = true →
      (∀ j : Nat, j < k → is_bussines_day (addDays v (-(j : Int))) none = false) →
      prevSearch n v = addDays v (-(k : Int)) := by
  intro n
  induction n with
  | zero =>
    intro v k hk
    exact absurd hk (by omega)
  | succ m ih =>
    intro v k hk hb hmin
    unfold prevSearch
    by_cases hv : is_bussines_day v none = true
    · rw [if_pos hv]
      have hk0 : k = 0 := by
        by_contra hk0
        have h0 := hmin 0 (by omega)
        rw [addDays_zero, hv] at h0
        exact Bool.noConfusion h0
      subst hk0
      exact (addDays_zero v).symm
    · rw [if_neg hv]
      have hk1 : 1 ≤ k := by
        rcases Nat.eq_zero_or_pos k with h0 | h1
        · subst h0
          rw [addDays_zero] at hb
          exact absurd hb hv
        · exact h1
      have harg : (-1 + -(((k - 1 : Nat)) : Int)) = -(k : Int) := by omega
      refine (ih (addDays v (-1)) (k - 1) (by omega) ?_ ?_).trans ?_
      · rw [addDays_addDays, harg]
        exact hb
      · intro j hj
        rw [addDays_addDays]
        have hj1 : (-1 + -(j : Int)) = -((j + 1 : Nat) : Int) := by push_cast; ring
        rw [hj1]
        exact hmin (j + 1) (by omega)
      · rw [addDays_addDays, harg]

theorem nextSearch_reaches :
    ∀ (n : Nat) (v : Datetime) (k : Nat), k < n →
      is_bussines_day (addDays v (k : Int)) none = true →
      (∀ j : Nat, j < k → is_bussines_day (addDays v (j : Int)) none = false) →
      nextSearch n v = addDays v (k : Int) := by
  intro n
  induction n with
  | zero =>
    intro v k hk
    exact absurd hk (by omega)
  | succ m ih =>
    intro v k hk hb hmin
    unfold nextSearch
    by_cases hv : is_bussines_day v none = true
    · rw [if_pos hv]
      have hk0 : k = 0 := by
        by_contra hk0
        have h0 := hmin 0 (by omega)
        have hz : addDays v ((0 : Nat) : Int) = v := by
          rcases v with ⟨vd, vt⟩
          simp [addDays]
        rw [hz, hv] at h0
        exact Bool.noConfusion h0
      subst hk0
      rcases v with ⟨vd, vt⟩
      simp [addDays]
    · rw [if_neg hv]
      have hk1 : 1 ≤ k := by
        rcases Nat.eq_zero_or_pos k with h0 | h1
        · subst h0
          have hz : addDays v ((0 : Nat) : Int) = v := by
            rcases v with ⟨vd, vt⟩
            simp [addDays]
          rw [hz] at hb
          exact absurd hb hv
        · exact h1
      have harg : ((1 : Int) + ((k - 1 : Nat) : Int)) = (k : Int) := by omega
      refine (ih (addDays v 1) (k - 1) (by omega) ?_ ?_).trans ?_
      · rw [addDays_addDays, harg]
        exact hb
      · intro j hj
        rw [addDays_addDays]
        have hj1 : ((1 : Int) + (j : Int)) = ((j + 1 : Nat) : Int) := by push_cast; ring
        rw [hj1]
        exact hmin (j + 1) (by omega)
      · rw [addDays_addDays, harg]

theorem get_prev_eq (v : Datetime) (keep : Bool)
    (h : ¬(keep = true ∧ is_bussines_day v none = true)) (k : Nat)
    (h1 : 1 ≤ k) (h6 : k ≤ 6)
    (hb : is_bussines_day (addDays v (-(k : Int))) none = true)
    (hmin : ∀ j : Nat, 1 ≤ j → j < k →
      is_bussines_day (addDays v (-(j : Int))) none = false) :
    get_prev_business_day v keep = addDays v (-(k : Int)) := by
  unfold get_prev_business_day
  rw [if_neg (by rw [Bool.and_eq_true]; exact h)]
  have harg : (-1 + -(((k - 1 : Nat)) : Int)) = -(k : Int) := by omega
  refine (prevSearch_reaches 7 (addDays v (-1)) (k - 1) (by omega) ?_ ?_).trans ?_
  · rw [addDays_addDays, harg]
    exact hb
  · intro j hj
    rw [addDays_addDays]
    have hj1 : (-1 + -(j : Int)) = -((j + 1 : Nat) : Int) := by push_cast; ring
    rw [hj1]
    exact hmin (j + 1) (by omega) (by omega)
  · rw [addDays_addDays, harg]

theorem get_next_eq (v : Datetime) (keep : Bool)
    (h : ¬(keep = true ∧ is_bussines_day v none = true)) (k : Nat)
    (h1 : 1 ≤ k) (h6 : k ≤ 6)
    (hb : is_bussines_day (addDays v (k : Int)) none = true)
    (hmin : ∀ j : Nat, 1 ≤ j → j < k →
      is_bussines_day (addDays v (j : Int)) none = false) :
    get_next_business_day v keep = addDays v (k : Int) := by
  unfold get_next_business_day
  rw [if_neg (by rw [Bool.and_eq_true]; exact h)]
  have harg : ((1 : Int) + ((k - 1 : Nat) : Int)) = (k : Int) := by omega
  refine (nextSearch_reaches 7 (addDays v 1) (k - 1) (by omega) ?_ ?_).trans ?_
  · rw [addDays_addDays, harg]
    exact hb
  · intro j hj
    rw [addDays_addDays]
    have hj1 : ((1 : Int) + (j : Int)) = ((j + 1 : Nat) : Int) := by push_cast; ring
    rw [hj1]
    exact hmin (j + 1) (by omega) (by omega)
  · rw [addDays_addDays, harg]

/-- Claim C7: with `keep=True` an input that is already a business day
is returned unchanged; otherwise both searches step one calendar day at
a time (backward resp. forward) and stop at the first business day,
which is reached within three steps; and the boundary cases
`previousBusinessDay(2023-05-20) = 2023-05-19`,
`nextBusinessDay(2023-05-19) = 2023-05-22`,
`nextBusinessDay(2023-05-19, keep=True) = 2023-05-19` hold. -/
theorem c7_business_day_stepping :
    (∀ v : Datetime, is_bussines_day v none = true →
      get_prev_business_day v true = v ∧ get_next_business_day v true = v) ∧
    (∀ (v : Datetime) (keep : Bool),
      ¬(keep = true ∧ is_bussines_day v none = true) →
      ∃ k : Nat, 1 ≤ k ∧ k ≤ 3 ∧
        get_prev_business_day v keep = addDays v (-(k : Int)) ∧
        is_bussines_day (addDays v (-(k : Int))) none = true ∧
        ∀ j : Nat, 1 ≤ j → j < k →
          is_bussines_day (addDays v (-(j : Int))) none = false) ∧
    (∀ (v : Datetime) (keep : Bool),
      ¬(keep = true ∧ is_bussines_day v none = true) →
      ∃ k : Nat, 1 ≤ k ∧ k ≤ 3 ∧
        get_next_business_day v keep = addDays v (k : Int) ∧
        is_bussines_day (addDays v (k : Int)) none = true ∧
        ∀ j : Nat, 1 ≤ j → j < k →
          is_bussines_day (addDays v (j : Int)) none = false) ∧
    (get_prev_business_day ⟨daysFromCivil 2023 5 20, 0⟩ false =
        ⟨daysFromCivil 2023 5 19, 0⟩ ∧
      get_next_business_day ⟨daysFromCivil 2023 5 19, 0⟩ false =
        ⟨daysFromCivil 2023 5 22, 0⟩ ∧
      get_next_business_day ⟨daysFromCivil 2023 5 19, 0⟩ true =
        ⟨daysFromCivil 2023 5 19, 0⟩) := by
  refine ⟨?_, ?_, ?_, by decide, by decide, by decide⟩
  · intro v hv
    constructor
    · unfold get_prev_business_day
      rw [Bool.true_and, if_pos hv]
    · unfold get_next_business_day
      rw [Bool.true_and, if_pos hv]
  · intro v keep h
    have h7 : (v.day + 3) % 7 = 0 ∨ (v.day + 3) % 7 = 1 ∨ (v.day + 3) % 7 = 2 ∨
        (v.day + 3) % 7 = 3 ∨ (v.day + 3) % 7 = 4 ∨ (v.day + 3) % 7 = 5 ∨
        (v.day + 3) % 7 = 6 := by omega
    rcases h7 with hr | hr | hr | hr | hr | hr | hr
    · -- Monday: the previous business day is last Friday, three steps back.
      have hb : is_bussines_day (addDays v (-((3 : Nat) : Int))) none = true := by
        rw [biz_addDays]
        exact decide_eq_true (by omega)
      have hmin : ∀ j : Nat, 1 ≤ j → j < 3 →
          is_bussines_day (addDays v (-(j : Int))) none = false := by
        intro j hj1 hj2
        interval_cases j
        all_goals
          rw [biz_addDays]
          exact decide_eq_false (by omega)
      exact ⟨3, by omega, by omega,
        get_prev_eq v keep h 3 (by omega) (by omega) hb hmin, hb, hmin⟩
    all_goals
      first
      | · -- Sunday: two steps back to Friday.
          have hb : is_bussines_day (addDays v (-((2 : Nat) : Int))) none = true := by
            rw [biz_addDays]
            exact decide_eq_true (by omega)
          have hmin : ∀ j : Nat, 1 ≤ j → j < 2 →
              is_bussines_day (addDays v (-(j : Int))) none = false := by
            intro j hj1 hj2
            interval_cases j
            all_goals
              rw [biz_addDays]
              exact decide_eq_false (by omega)
          exact ⟨2, by omega, by omega,
            get_prev_eq v keep h 2 (by omega) (by omega) hb hmin, hb, hmin⟩
      | · -- Tuesday..Saturday: the previous calendar day is a business day.
          have hb : is_bussines_day (addDays v (-((1 : Nat) : Int))) none = true := by
            rw [biz_addDays]
            exact decide_eq_true (by omega)
          have hmin : ∀ j : Nat, 1 ≤ j → j < 1 →
              is_bussines_day (addDays v (-(j : Int))) none = false := by
            intro j hj1 hj2
            omega
          exact ⟨1, by omega, by omega,
            get_prev_eq v keep h 1 (by omega) (by omega) hb hmin, hb, hmin⟩
  · intro v keep h
    have h7 : (v.day + 3) % 7 = 0 ∨ (v.day + 3) % 7 = 1 ∨ (v.day + 3) % 7 = 2 ∨
        (v.day + 3) % 7 = 3 ∨ (v.day + 3) % 7 = 4 ∨ (v.day + 3) % 7 = 5 ∨
        (v.day + 3) % 7 = 6 := by omega
    rcases h7 with hr | hr | hr | hr | hr | hr | hr
    all_goals
      first
      | · -- Friday: three steps forward to Monday.
          have hb : is_bussines_day (addDays v ((3 : Nat) : Int)) none = true := by
            rw [biz_addDays]
            exact decide_eq_true (by omega)
          have hmin : ∀ j : Nat, 1 ≤ j → j < 3 →
              is_bussines_day (addDays v (j : Int)) none = false := by
            intro j hj1 hj2
            interval_cases j
            all_goals
              rw [biz_addDays]
              exact decide_eq_false (by omega)
          exact ⟨3, by omega, by omega,
            get_next_eq v keep h 3 (by omega) (by omega) hb hmin, hb, hmin⟩
      | · -- Saturday: two steps forward to Monday.
          have hb : is_bussines_day (addDays v ((2 : Nat) : Int)) none = true := by
            rw [biz_addDays]
            exact decide_eq_true (by omega)
          have hmin : ∀ j : Nat, 1 ≤ j → j < 2 →
              is_bussines_day (addDays v (j : Int)) none = false := by
            intro j hj1 hj2
            interval_cases j
            all_goals
              rw [biz_addDays]
              exact decide_eq_false (by omega)
          exact ⟨2, by omega, by omega,
            get_next_eq v keep h 2 (by omega) (by omega) hb hmin, hb, hmin⟩
      | · -- Monday..Thursday, Sunday: the next calendar day is a business day.
          have hb : is_bussines_day (addDays v ((1 : Nat) : Int)) none = true := by
            rw [biz_addDays]
            exact decide_eq_true (by omega)
          have hmin : ∀ j : Nat, 1 ≤ j → j < 1 →
              is_bussines_day (addDays v (j : Int)) none = false := by
            intro j hj1 hj2
            omega
          exact ⟨1, by omega, by omega,
            get_next_eq v keep h 1 (by omega) (by omega) hb hmin, hb, hmin⟩

/-- Claim C7, witness: applied at Saturday 2023-05-20 the backward
search exists within three steps, and Friday 2023-05-19 with `keep` is
returned unchanged. -/
theorem c7_business_day_stepping_witness :
    (∃ k : Nat, 1 ≤ k ∧ k ≤ 3 ∧
      get_prev_business_day ⟨daysFromCivil 2023 5 20, 0⟩ false =
        addDays ⟨daysFromCivil 2023 5 20, 0⟩ (-(k : Int)) ∧
      is_bussines_day (addDays ⟨daysFromCivil 2023 5 20, 0⟩ (-(k : Int))) none = true ∧
      ∀ j : Nat, 1 ≤ j → j < k →
        is_bussines_day (addDays ⟨daysFromCivil 2023 5 20, 0⟩ (-(j : Int))) none = false) ∧
    get_prev_business_day ⟨daysFromCivil 2023 5 19, 0⟩ true =
      ⟨daysFromCivil 2023 5 19, 0⟩ := by
  constructor
  · exact c7_business_day_stepping.2.1 ⟨daysFromCivil 2023 5 20, 0⟩ false (by decide)
  · exact (c7_business_day_stepping.1 ⟨daysFromCivil 2023 5 19, 0⟩ (by decide)).1

theorem mem_intRangeAux : ∀ (n : Nat) (lo j : Int),
    j ∈ intRangeAux n lo ↔ (lo ≤ j ∧ j < lo + n) := by
  intro n
  induction n with
  | zero =>
    intro lo j
    simp only [intRangeAux, List.not_mem_nil, false_iff]
    omega
  | succ m ih =>
    intro lo j
    simp only [intRangeAux, List.mem_cons, ih]
    omega

theorem pairwise_intRangeAux : ∀ (n : Nat) (lo : Int),
    (intRangeAux n lo).Pairwise (· < ·) := by
  intro n
  induction n with
  | zero =>
    intro lo
    exact List.Pairwise.nil
  | succ m ih =>
    intro lo
    refine List.Pairwise.cons (fun x hx => ?_) (ih (lo + 1))
    have := (mem_intRangeAux m (lo + 1) x).mp hx
    omega

theorem intRange_empty (lo hi : Int) (h : hi < lo) : intRange lo hi = [] := by
  unfold intRange
  rw [show (hi + 1 - lo).toNat = 0 from by omega]
  rfl

theorem intRange_cons (lo hi : Int) (h : lo ≤ hi) :
    intRange lo hi = lo :: intRange (lo + 1) hi := by
  unfold intRange
  rw [show (hi + 1 - lo).toNat = (hi + 1 - (lo + 1)).toNat + 1 from by omega]
  rfl

theorem bizDaysLoop_eq :
    ∀ (n : Nat) (a e : Datetime), 0 ≤ a.tod → a.tod < usPerDay → 0 ≤ e.tod →
      e.tod < usPerDay → a.tod ≤ e.tod → e.day - a.day < (n : Int) →
      bizDaysLoop n a e =
        ((intRange a.day e.day).filter (fun j => (j + 3) % 7 ≤ 4)).map
          (fun j => (⟨j, 0⟩ : Datetime)) := by
  intro n
  induction n with
  | zero =>
    intro a e h1 h2 h3 h4 h5 hn
    rw [intRange_empty _ _ (by omega)]
    rfl
  | succ m ih =>
    intro a e h1 h2 h3 h4 h5 hn
    have hD : usPerDay = 86400000000 := rfl
    rw [hD] at h2 h4
    unfold bizDaysLoop
    by_cases hle : toMicros a ≤ toMicros e
    · rw [if_pos hle]
      have hday : a.day ≤ e.day := by
        simp only [toMicros, hD] at hle
        omega
      have harec := ih (addDays a 1) e (by rw [addDays_tod]; exact h1)
        (by rw [addDays_tod, hD]; exact h2) h3 (by rw [hD]; exact h4)
        (by rw [addDays_tod]; exact h5)
        (by rw [addDays_day]; push_cast at hn ⊢; omega)
      rw [addDays_day] at harec
      rw [harec, intRange_cons a.day e.day hday]
      by_cases hw : (a.day + 3) % 7 ≤ 4 <;>
        simp [List.filter_cons, hw, midnightOf, pyWeekday]
    · rw [if_neg hle]
      have hday : e.day < a.day := by
        simp only [toMicros, hD] at hle
        omega
      rw [intRange_empty _ _ (by omega)]
      rfl

/-- Claim C5, counterexample.  The claim quantifies over all start/end
datetimes, but the scan keeps `start`'s time-of-day: with
`start = 2023-01-02 12:00` and `end = 2023-01-04 00:00`, the Wednesday
2023-01-04 is a business day strictly after `start` and (at midnight)
not after `end`, yet the returned list is only `[2023-01-03]`. -/
theorem c5_business_days_between_counterexample :
    get_business_days_between ⟨daysFromCivil 2023 1 2, 43200000000⟩
        ⟨daysFromCivil 2023 1 4, 0⟩ = [⟨daysFromCivil 2023 1 3, 0⟩] ∧
    (⟨daysFromCivil 2023 1 4, 0⟩ : Datetime).tod = 0 ∧
    pyWeekday ⟨daysFromCivil 2023 1 4, 0⟩ ≤ 4 ∧
    toMicros ⟨daysFromCivil 2023 1 2, 43200000000⟩ <
      toMicros ⟨daysFromCivil 2023 1 4, 0⟩ ∧
    toMicros ⟨daysFromCivil 2023 1 4, 0⟩ ≤ toMicros ⟨daysFromCivil 2023 1 4, 0⟩ ∧
    (⟨daysFromCivil 2023 1 4, 0⟩ : Datetime) ∉
      get_business_days_between ⟨daysFromCivil 2023 1 2, 43200000000⟩
        ⟨daysFromCivil 2023 1 4, 0⟩ := by
  decide

/-- Claim C5, amended.  Whenever `start`'s time-of-day does not exceed
`end`'s (in particular for midnight-normalized inputs, as in the
claim's example), `get_business_days_between` returns exactly the
business days strictly after `start` and up to and including `end`,
normalized to midnight and in increasing order; it returns `[]`
whenever `end <= start`; but when `start`'s time-of-day exceeds `end`'s
the final candidate day is dropped, as the counterexample shows. -/
theorem c5_business_days_between_amended :
    (∀ s e : Datetime, 0 ≤ s.tod → s.tod < usPerDay → 0 ≤ e.tod →
      e.tod < usPerDay → s.tod ≤ e.tod →
      get_business_days_between s e = businessDaysSpec s e) ∧
    (∀ s e : Datetime, toMicros e ≤ toMicros s →
      get_business_days_between s e = []) ∧
    (∀ s e : Datetime, 0 ≤ s.tod → s.tod < usPerDay → 0 ≤ e.tod →
      e.tod < usPerDay →
      (businessDaysSpec s e).Pairwise (fun a b => toMicros a < toMicros b) ∧
      (∀ d : Datetime, d ∈ businessDaysSpec s e ↔
        (d.tod = 0 ∧ pyWeekday d ≤ 4 ∧ toMicros s < toMicros d ∧
          toMicros d ≤ toMicros e))) ∧
    get_business_days_between ⟨daysFromCivil 2023 1 1, 0⟩
        ⟨daysFromCivil 2023 1 7, 0⟩ =
      [⟨daysFromCivil 2023 1 2, 0⟩, ⟨daysFromCivil 2023 1 3, 0⟩,
       ⟨daysFromCivil 2023 1 4, 0⟩, ⟨daysFromCivil 2023 1 5, 0⟩,
       ⟨daysFromCivil 2023 1 6, 0⟩] := by
  refine ⟨?_, ?_, ?_, by decide⟩
  · intro s e h1 h2 h3 h4 h5
    unfold get_business_days_between
    have h := bizDaysLoop_eq (e.day - s.day + 1).toNat (addDays s 1) e
      (by rw [addDays_tod]; exact h1) (by rw [addDays_tod]; exact h2) h3 h4
      (by rw [addDays_tod]; exact h5) (by rw [addDays_day]; omega)
    rw [addDays_day] at h
    rw [h]
    rfl
  · intro s e hle
    unfold get_business_days_between
    rcases hN : (e.day - s.day + 1).toNat with _ | k
    · rfl
    · have hcond : ¬toMicros (addDays s 1) ≤ toMicros e := by
        simp only [toMicros, addDays_day, addDays_tod,
          show usPerDay = 86400000000 from rfl] at hle ⊢
        omega
      unfold bizDaysLoop
      rw [if_neg hcond]
  · intro s e h1 h2 h3 h4
    have hD : usPerDay = 86400000000 := rfl
    rw [hD] at h2 h4
    constructor
    · unfold businessDaysSpec
      have hpr : (intRange (s.day + 1) e.day).Pairwise (· < ·) :=
        pairwise_intRangeAux _ _
      have hpf := List.Pairwise.filter (fun j => decide ((j + 3) % 7 ≤ 4)) hpr
      refine hpf.map (fun j => (⟨j, 0⟩ : Datetime)) (fun a b hab => ?_)
      simp only [toMicros, hD]
      omega
    · intro d
      unfold businessDaysSpec intRange
      simp only [List.mem_map, List.mem_filter, mem_intRangeAux,
        decide_eq_true_eq]
      constructor
      · rintro ⟨j, ⟨⟨hj1, hj2⟩, hw⟩, rfl⟩
        refine ⟨rfl, ?_, ?_, ?_⟩
        · simpa [pyWeekday] using hw
        · simp only [toMicros, hD]
          omega
        · simp only [toMicros, hD]
          omega
      · rintro ⟨h0, hw, hlt, hle⟩
        rcases d with ⟨dd, dt⟩
        simp only at h0
        subst h0
        simp only [toMicros, hD] at hlt hle
        refine ⟨dd, ⟨⟨by omega, by omega⟩, ?_⟩, rfl⟩
        simpa [pyWeekday] using hw

/-- Claim C5, witness: the amended statement applied at the claim's own
example interval (both endpoints at midnight). -/
theorem c5_business_days_between_amended_witness :
    get_business_days_between ⟨daysFromCivil 2023 1 1, 0⟩
        ⟨daysFromCivil 2023 1 7, 0⟩ =
      businessDaysSpec ⟨daysFromCivil 2023 1 1, 0⟩ ⟨daysFromCivil 2023 1 7, 0⟩ := by
  exact c5_business_days_between_amended.1 ⟨daysFromCivil 2023 1 1, 0⟩
    ⟨daysFromCivil 2023 1 7, 0⟩ (by decide) (by decide) (by decide) (by decide)
    (by decide)

/-- Claim C8: whenever the reference's day-of-month exists in the
computed target month, `up_date` behaves as: add the year offset, then
the month offset with floor-division carry of month overflow into the
year (so month index 13 becomes month 1 of the next year:
`(t-1)/12` carry and `(t-1)%12+1` month), then add the day offset to
the resulting midnight date; in particular
`up_date(2023-01-01, days=1, months=1, years=1) = 2024-02-02`. -/
theorem c8_up_date_shift_order :
    (∀ (ref : Datetime) (days months years y m d : Int),
      civilFromDays ref.day = (y, m, d) →
      ¬(months = 0 ∧ years = 0 ∧ days = 0) →
      1 ≤ y + years + (m + months - 1) / 12 →
      y + years + (m + months - 1) / 12 ≤ 9999 →
      1 ≤ d →
      d ≤ daysInMonth (y + years + (m + months - 1) / 12)
        ((m + months - 1) % 12 + 1) →
      up_date ref days months years =
        Except.ok (addDays
          ⟨daysFromCivil (y + years + (m + months - 1) / 12)
            ((m + months - 1) % 12 + 1) d, 0⟩ days)) ∧
    up_date ⟨daysFromCivil 2023 1 1, 0⟩ 1 1 1 =
      Except.ok ⟨daysFromCivil 2024 2 2, 0⟩ := by
  constructor
  · intro ref days months years y m d hc h0 hy1 hy2 hd1 hd2
    simp only [up_date, hc]
    rw [if_neg h0, month_norm (m + months),
      mkDatetime_ok (y + years + (m + months - 1) / 12) ((m + months - 1) % 12 + 1)
        d hy1 hy2 (by omega) (by omega) hd1 hd2]
  · rfl

/-- Claim C8, witness: the general shift law applied at the claim's own
example, `up_date(2023-01-01, 1, 1, 1)`. -/
theorem c8_up_date_shift_order_witness :
    up_date ⟨daysFromCivil 2023 1 1, 0⟩ 1 1 1 =
      Except.ok (addDays ⟨daysFromCivil 2024 2 1, 0⟩ 1) := by
  have h := c8_up_date_shift_order.1 ⟨daysFromCivil 2023 1 1, 0⟩ 1 1 1 2023 1 1
    (by decide) (by decide) (by decide) (by decide) (by decide) (by decide)
  exact h.trans (by rfl)

/-- Claim C1, witness: `up_date(2023-05-31, months=-1)` hits the clamp
(April has no day 31) and yields 2023-05-01, and the shifted-index `-1`
case `up_date(2023-05-31, months=-6)` (November 2022 has no day 31)
clamps to 2022-12-01. -/
theorem c1_up_date_clamp_amended_witness :
    up_date ⟨daysFromCivil 2023 5 31, 0⟩ 0 (-1) 0 =
      Except.ok ⟨daysFromCivil 2023 5 1, 0⟩ ∧
    up_date ⟨daysFromCivil 2023 5 31, 0⟩ 0 (-6) 0 =
      Except.ok ⟨daysFromCivil 2022 12 1, 0⟩ := by
  constructor
  · have h := c1_up_date_clamp_amended ⟨daysFromCivil 2023 5 31, 0⟩ 0 (-1) 0
      2023 5 31 (by decide) (by decide) (by decide) (by decide) (by decide)
      (by decide)
    exact h.trans rfl
  · have h := c1_up_date_clamp_amended ⟨daysFromCivil 2023 5 31, 0⟩ 0 (-6) 0
      2023 5 31 (by decide) (by decide) (by decide) (by decide) (by decide)
      (by decide)
    exact h.trans rfl
